import Mathlib

/-!
Shallow embedding of the drogalis/SPSC-Queue ring-buffer engine.

The primary implementation is `include/dro/spsc-queue.hpp` (`dro::SPSCQueue`);
the repository also carries an older variant `src/spsc-queue.hpp`
(`dro::SPSC_Queue`) whose constructor differs.  Machine integers
(`std::size_t`) are modelled as `Nat`; the constructor guards make genuine
overflow impossible in the primary implementation, and in the places where the
older variant can wrap we write the wrap explicitly as `% 2 ^ 64`.

The queue is used by exactly two threads in C++; every claim settled here is
about the sequential (interleaved) semantics of the operations, so each
operation is a pure state transformer.  The blocking `emplace` returns
`none` in the state where its spin loop would never terminate (the refreshed
read-index cache still blocks the write): sequentially the loop body is
idempotent after one refresh.
-/

namespace SPSC

/-- Model of `std::hardware_destructive_interference_size` fallback: the
source pins `cacheLineSize` to 64 when the feature macro is absent. -/
def cacheLineSize : Nat := 64

/-- Model of the static member `padding = ((cacheLineSize - 1) / sizeof(T)) + 1`
as a pure function of `cacheLine` and `sizeof(T)`. -/
def paddingFormula (cacheLine sizeofT : Nat) : Nat :=
  (cacheLine - 1) / sizeofT + 1

/-- The padding actually compiled into `dro::SPSCQueue<T>`: the formula at the
fixed `cacheLineSize`. -/
def paddingOf (sizeofT : Nat) : Nat :=
  paddingFormula cacheLineSize sizeofT

/-- Model of `std::numeric_limits<std::size_t>::max()` on a 64-bit platform. -/
def MAX_SIZE_T : Nat := 2 ^ 64 - 1

/-- The two exception types the `dro::SPSCQueue` constructor can throw:
`std::logic_error` (the spec's `ConfigurationError`) for capacity `< 1` and
`std::overflow_error` for the padding-overflow guard. -/
inductive ConstructError where
  | logicError
  | overflowError
deriving DecidableEq

/-- State of a `dro::SPSCQueue<T>` instance.  `buffer_` is the element store
(total over `Nat`; the C++ vector has length `bufferSize_`), `padding` is the
static per-type constant, and the four cursor fields mirror the members of the
same names. -/
structure SPSCQueue (α : Type) where
  capacity_ : Nat
  buffer_ : Nat → α
  bufferSize_ : Nat
  padding : Nat
  readIndex_ : Nat
  readIndexCache_ : Nat
  writeIndex_ : Nat
  writeIndexCache_ : Nat

/-- Constructor of `dro::SPSCQueue`: throws `std::logic_error` on capacity
`< 1`, throws `std::overflow_error` when `capacity > MAX_SIZE_T - 2*padding - 1`,
otherwise increments the stored capacity by one (the hidden slot) and resizes
the buffer to `capacity_ + 2 * padding` default-constructed elements
(`dflt`).  `sizeofT` selects the compiled-in padding constant. -/
def construct (dflt : α) (sizeofT capacity : Nat) :
    Except ConstructError (SPSCQueue α) :=
  if capacity < 1 then
    Except.error ConstructError.logicError
  else if capacity > MAX_SIZE_T - 2 * paddingOf sizeofT - 1 then
    Except.error ConstructError.overflowError
  else
    Except.ok
      { capacity_ := capacity + 1
        buffer_ := fun _ => dflt
        bufferSize_ := capacity + 1 + 2 * paddingOf sizeofT
        padding := paddingOf sizeofT
        readIndex_ := 0
        readIndexCache_ := 0
        writeIndex_ := 0
        writeIndexCache_ := 0 }

/-- Private helper `write_value`: assigns `buffer_[writeIndex + padding] = val`. -/
def write_value (q : SPSCQueue α) (writeIndex : Nat) (val : α) : SPSCQueue α :=
  { q with buffer_ := fun j => if j = writeIndex + q.padding then val else q.buffer_ j }

/-- Private helper `read_value`: returns `buffer_[readIndex + padding]`. -/
def read_value (q : SPSCQueue α) (readIndex : Nat) : α :=
  q.buffer_ (readIndex + q.padding)

/-- Blocking `emplace`.  Sequentially the spin loop refreshes
`readIndexCache_` from `readIndex_` once; if the refreshed cache still equals
`nextWriteIndex` the loop can never exit, which we model as `none`.  When the
cached check passes on the first try the cache is not refreshed. -/
def emplace (q : SPSCQueue α) (val : α) : Option (SPSCQueue α) :=
  let writeIndex := q.writeIndex_
  let nextWriteIndex := if writeIndex = q.capacity_ - 1 then 0 else writeIndex + 1
  if nextWriteIndex = q.readIndexCache_ then
    if nextWriteIndex = q.readIndex_ then none
    else
      some { write_value { q with readIndexCache_ := q.readIndex_ } writeIndex val with
             writeIndex_ := nextWriteIndex }
  else some { write_value q writeIndex val with writeIndex_ := nextWriteIndex }

/-- Overwrite `force_emplace`: no fullness check, always writes slot
`writeIndex` and advances the cursor. -/
def force_emplace (q : SPSCQueue α) (val : α) : SPSCQueue α :=
  let writeIndex := q.writeIndex_
  let nextWriteIndex := if writeIndex = q.capacity_ - 1 then 0 else writeIndex + 1
  { write_value q writeIndex val with writeIndex_ := nextWriteIndex }

/-- Non-blocking `try_emplace`: on a cache hit of fullness refreshes the cache
once from `readIndex_`; if still full returns `false` without writing. -/
def try_emplace (q : SPSCQueue α) (val : α) : Bool × SPSCQueue α :=
  let writeIndex := q.writeIndex_
  let nextWriteIndex := if writeIndex = q.capacity_ - 1 then 0 else writeIndex + 1
  if nextWriteIndex = q.readIndexCache_ then
    if nextWriteIndex = q.readIndex_ then
      (false, { q with readIndexCache_ := q.readIndex_ })
    else
      (true, { write_value { q with readIndexCache_ := q.readIndex_ } writeIndex val with
               writeIndex_ := nextWriteIndex })
  else (true, { write_value q writeIndex val with writeIndex_ := nextWriteIndex })

/-- The `push` family delegates to `emplace` (single-argument case). -/
def push (q : SPSCQueue α) (val : α) : Option (SPSCQueue α) :=
  emplace q val

/-- The `force_push` family delegates to `force_emplace`. -/
def force_push (q : SPSCQueue α) (val : α) : SPSCQueue α :=
  force_emplace q val

/-- The `try_push` family delegates to `try_emplace`. -/
def try_push (q : SPSCQueue α) (val : α) : Bool × SPSCQueue α :=
  try_emplace q val

/-- Non-blocking `try_pop`: returns the popped value (the C++ out-parameter)
paired with the new state; `none` models the `return false` path. -/
def try_pop (q : SPSCQueue α) : Option α × SPSCQueue α :=
  let readIndex := q.readIndex_
  let nextReadIndex := if readIndex = q.capacity_ - 1 then 0 else readIndex + 1
  if readIndex = q.writeIndexCache_ then
    if readIndex = q.writeIndex_ then
      (none, { q with writeIndexCache_ := q.writeIndex_ })
    else
      (some (read_value q readIndex),
       { q with writeIndexCache_ := q.writeIndex_, readIndex_ := nextReadIndex })
  else (some (read_value q readIndex), { q with readIndex_ := nextReadIndex })

/-- Query `size()`: branch on `writeIndex >= readIndex` exactly as the source
does to avoid signed conversion. -/
def size (q : SPSCQueue α) : Nat :=
  if q.writeIndex_ ≥ q.readIndex_ then q.writeIndex_ - q.readIndex_
  else q.capacity_ - q.readIndex_ + q.writeIndex_

/-- Query `empty()`: compares the two live cursors. -/
def empty (q : SPSCQueue α) : Bool :=
  q.writeIndex_ == q.readIndex_

/-- Query `capacity()`: the stored capacity minus the hidden slot. -/
def capacity (q : SPSCQueue α) : Nat :=
  q.capacity_ - 1

/-- Fullness as the spec defines it: advancing `writeIndex` by one
(mod `capacity+1`, written with the code's advance expression) equals
`readIndex`. -/
def isFull (q : SPSCQueue α) : Bool :=
  (if q.writeIndex_ = q.capacity_ - 1 then 0 else q.writeIndex_ + 1) == q.readIndex_

/-- One public mutating operation of `dro::SPSCQueue`, as a step relation. -/
inductive Step : SPSCQueue α → SPSCQueue α → Prop where
  | emp (q : SPSCQueue α) (v : α) (q2 : SPSCQueue α) :
      emplace q v = some q2 → Step q q2
  | tryEmp (q : SPSCQueue α) (v : α) (q2 : SPSCQueue α) :
      (try_emplace q v).2 = q2 → Step q q2
  | forceEmp (q : SPSCQueue α) (v : α) (q2 : SPSCQueue α) :
      force_emplace q v = q2 → Step q q2
  | pop (q : SPSCQueue α) (q2 : SPSCQueue α) :
      (try_pop q).2 = q2 → Step q q2

/-- Reachability by any sequence of public mutating operations. -/
inductive Reachable : SPSCQueue α → SPSCQueue α → Prop where
  | refl (q : SPSCQueue α) : Reachable q q
  | step (q q1 q2 : SPSCQueue α) : Reachable q q1 → Step q1 q2 → Reachable q q2

/-- One guarded (non-overwriting) operation: `emplace`, `try_emplace` or
`try_pop`, excluding the `force` family. -/
inductive StepG : SPSCQueue α → SPSCQueue α → Prop where
  | emp (q : SPSCQueue α) (v : α) (q2 : SPSCQueue α) :
      emplace q v = some q2 → StepG q q2
  | tryEmp (q : SPSCQueue α) (v : α) (q2 : SPSCQueue α) :
      (try_emplace q v).2 = q2 → StepG q q2
  | pop (q : SPSCQueue α) (q2 : SPSCQueue α) :
      (try_pop q).2 = q2 → StepG q q2

/-- Reachability by guarded operations only. -/
inductive ReachableG : SPSCQueue α → SPSCQueue α → Prop where
  | refl (q : SPSCQueue α) : ReachableG q q
  | step (q q1 q2 : SPSCQueue α) : ReachableG q q1 → StepG q1 q2 → ReachableG q q2

/-! ### Arithmetic helpers -/

theorem succ_mod (cap a : Nat) (h2 : 2 ≤ cap) :
    (a + 1) % cap = if a % cap = cap - 1 then 0 else a % cap + 1 := by
  have hpos : 0 < cap := by omega
  have h1 : (1 : Nat) % cap = 1 := Nat.mod_eq_of_lt (by omega)
  have ha := Nat.mod_lt a hpos
  by_cases hc : a % cap = cap - 1
  · rw [if_pos hc, Nat.add_mod, h1, hc]
    have hcc : cap - 1 + 1 = cap := by omega
    rw [hcc, Nat.mod_self]
  · rw [if_neg hc, Nat.add_mod, h1, Nat.mod_eq_of_lt (by omega)]

theorem mod_eq_iff (cap a b : Nat) (hab : a ≤ b) (hb : b ≤ a + cap) :
    a % cap = b % cap ↔ (b = a ∨ b = a + cap) := by
  constructor
  · intro h
    have hdvd : cap ∣ b - a := (Nat.modEq_iff_dvd' hab).mp h
    rcases Nat.eq_zero_or_pos (b - a) with h0 | hpos
    · left; omega
    · right
      have := Nat.le_of_dvd hpos hdvd
      omega
  · intro h
    rcases h with h | h
    · rw [h]
    · rw [h, Nat.add_mod_right]

theorem nextIdx_eq (cap w : Nat) (hw : w < cap) :
    (if w = cap - 1 then 0 else w + 1) = (w + 1) % cap := by
  by_cases hc : w = cap - 1
  · rw [if_pos hc]
    have hcc : w + 1 = cap := by omega
    rw [hcc, Nat.mod_self]
  · rw [if_neg hc, Nat.mod_eq_of_lt (by omega)]

theorem nextIdx_lt (cap w : Nat) (hw : w < cap) :
    (if w = cap - 1 then 0 else w + 1) < cap := by
  by_cases hc : w = cap - 1
  · rw [if_pos hc]; omega
  · rw [if_neg hc]; omega

/-! ### Bounds invariant -/

/-- Basic well-formedness: the stored capacity is the requested capacity plus
the hidden slot, and both cursors are in range. -/
def WF (c : Nat) (q : SPSCQueue α) : Prop :=
  q.capacity_ = c + 1 ∧ q.readIndex_ < q.capacity_ ∧ q.writeIndex_ < q.capacity_

theorem size_eq (q : SPSCQueue α) (hr : q.readIndex_ < q.capacity_)
    (hw : q.writeIndex_ < q.capacity_) :
    size q = (q.writeIndex_ + q.capacity_ - q.readIndex_) % q.capacity_ := by
  unfold size
  by_cases hge : q.writeIndex_ ≥ q.readIndex_
  · rw [if_pos hge]
    have h1 : q.writeIndex_ + q.capacity_ - q.readIndex_ =
        q.writeIndex_ - q.readIndex_ + q.capacity_ := by omega
    rw [h1, Nat.add_mod_right, Nat.mod_eq_of_lt (by omega)]
  · rw [if_neg hge, Nat.mod_eq_of_lt (by omega)]
    omega

theorem construct_fields (dflt : α) (s c : Nat) (q : SPSCQueue α)
    (h : construct dflt s c = Except.ok q) :
    WF c q ∧ 1 ≤ c ∧ q.readIndex_ = 0 ∧ q.writeIndex_ = 0 ∧
    q.readIndexCache_ = 0 ∧ q.writeIndexCache_ = 0 ∧
    q.padding = paddingOf s ∧ q.bufferSize_ = c + 1 + 2 * paddingOf s := by
  unfold construct at h
  split at h
  · exact absurd h (by simp)
  · split at h
    · exact absurd h (by simp)
    · injection h with h
      subst h
      refine ⟨⟨rfl, by show (0:Nat) < c + 1; omega, by show (0:Nat) < c + 1; omega⟩, by omega, rfl, rfl, rfl, rfl, rfl, rfl⟩

theorem step_wf (c : Nat) (q q2 : SPSCQueue α) (hwf : WF c q) (h : Step q q2) :
    WF c q2 := by
  obtain ⟨hc, hr0, hw0⟩ := hwf
  cases h with
  | emp v q2 h =>
    unfold emplace at h
    dsimp only at h
    split at h <;> (try split at h) <;> (try split at h) <;>
      first
        | exact Option.noConfusion h
        | (injection h with h; subst h;
           exact ⟨hc, by (try simp [write_value]) <;> omega,
             by (try simp [write_value]) <;> omega⟩)
  | tryEmp v q2 h =>
    unfold try_emplace at h
    dsimp only at h
    split at h <;> (try split at h) <;> (try split at h) <;>
      (subst h;
       exact ⟨hc, by (try simp [write_value]) <;> omega,
         by (try simp [write_value]) <;> omega⟩)
  | forceEmp v q2 h =>
    unfold force_emplace at h
    dsimp only at h
    split at h <;>
      (subst h;
       exact ⟨hc, by (try simp [write_value]) <;> omega,
         by (try simp [write_value]) <;> omega⟩)
  | pop q2 h =>
    unfold try_pop at h
    dsimp only at h
    split at h <;> (try split at h) <;> (try split at h) <;>
      (subst h;
       exact ⟨hc, by (try simp [write_value]) <;> omega,
         by (try simp [write_value]) <;> omega⟩)

theorem reachable_wf (c : Nat) (q0 q : SPSCQueue α) (hwf : WF c q0)
    (h : Reachable q0 q) : WF c q := by
  induction h with
  | refl => exact hwf
  | step q1 q2 h1 h2 ih => exact step_wf c q1 q2 ih h2

/-! ### Ghost-counter invariant for guarded (non-force) executions -/

theorem wrap_succ (cap a : Nat) (h2 : 2 ≤ cap) :
    (if a % cap = cap - 1 then 0 else a % cap + 1) = (a + 1) % cap := by
  rw [succ_mod cap a h2]

theorem mod_ne_bound (cap a b : Nat) (hab : a ≤ b) (hb : b ≤ a + cap)
    (hne : ¬ b % cap = a % cap) : a + 1 ≤ b ∧ b ≤ a + cap - 1 := by
  have hiff := mod_eq_iff cap a b hab hb
  have hno : ¬ (b = a ∨ b = a + cap) := fun hx => hne ((hiff.mpr hx).symm)
  push_neg at hno
  omega

/-- Ghost-counter invariant: the cursors and caches are the wrapped images of
unbounded operation counters `R` (pops), `W` (pushes), `Rc`, `Wc` (the last
counter values the two caches saw), related as the guarded protocol keeps
them: the writer is never more than `capacity_ - 1` ahead of the reader it
last saw, and the reader never runs ahead of the writer it last saw. -/
def InvG (q : SPSCQueue α) : Prop :=
  2 ≤ q.capacity_ ∧
  ∃ R W Rc Wc : Nat,
    q.readIndex_ = R % q.capacity_ ∧ q.writeIndex_ = W % q.capacity_ ∧
    q.readIndexCache_ = Rc % q.capacity_ ∧ q.writeIndexCache_ = Wc % q.capacity_ ∧
    Rc ≤ R ∧ Wc ≤ W ∧ R ≤ W ∧ W ≤ R + (q.capacity_ - 1) ∧
    W ≤ Rc + (q.capacity_ - 1) ∧ R ≤ Wc

theorem emplace_invG (q q2 : SPSCQueue α) (v : α) (hinv : InvG q)
    (h : emplace q v = some q2) : InvG q2 := by
  obtain ⟨h2, R, W, Rc, Wc, hr, hw, hrc, hwc, i1, i2, i3, i4, i5, i6⟩ := hinv
  unfold emplace at h
  dsimp only at h
  rw [hw, wrap_succ q.capacity_ W h2, hrc, hr] at h
  by_cases hb1 : (W + 1) % q.capacity_ = Rc % q.capacity_
  · rw [if_pos hb1] at h
    by_cases hb2 : (W + 1) % q.capacity_ = R % q.capacity_
    · rw [if_pos hb2] at h
      exact Option.noConfusion h
    · rw [if_neg hb2] at h
      injection h with h
      subst h
      have hb := mod_ne_bound q.capacity_ R (W + 1) (by omega) (by omega) hb2
      refine ⟨h2, R, W + 1, R, Wc, rfl, rfl, rfl, hwc, ?_, ?_, ?_, ?_, ?_, ?_⟩ <;>
        ((try simp only [write_value]); omega)
  · rw [if_neg hb1] at h
    injection h with h
    subst h
    have hb := mod_ne_bound q.capacity_ Rc (W + 1) (by omega) (by omega) hb1
    refine ⟨h2, R, W + 1, Rc, Wc, hr, rfl, hrc, hwc, ?_, ?_, ?_, ?_, ?_, ?_⟩ <;>
        ((try simp only [write_value]); omega)

theorem try_emplace_invG (q q2 : SPSCQueue α) (v : α) (hinv : InvG q)
    (h : (try_emplace q v).2 = q2) : InvG q2 := by
  obtain ⟨h2, R, W, Rc, Wc, hr, hw, hrc, hwc, i1, i2, i3, i4, i5, i6⟩ := hinv
  unfold try_emplace at h
  dsimp only at h
  rw [hw, wrap_succ q.capacity_ W h2, hrc, hr] at h
  by_cases hb1 : (W + 1) % q.capacity_ = Rc % q.capacity_
  · rw [if_pos hb1] at h
    by_cases hb2 : (W + 1) % q.capacity_ = R % q.capacity_
    · rw [if_pos hb2] at h
      subst h
      refine ⟨h2, R, W, R, Wc, rfl, rfl, rfl, hwc, ?_, ?_, ?_, ?_, ?_, ?_⟩ <;>
        ((try simp only [write_value]); omega)
    · rw [if_neg hb2] at h
      subst h
      have hb := mod_ne_bound q.capacity_ R (W + 1) (by omega) (by omega) hb2
      refine ⟨h2, R, W + 1, R, Wc, rfl, rfl, rfl, hwc, ?_, ?_, ?_, ?_, ?_, ?_⟩ <;>
        ((try simp only [write_value]); omega)
  · rw [if_neg hb1] at h
    subst h
    have hb := mod_ne_bound q.capacity_ Rc (W + 1) (by omega) (by omega) hb1
    refine ⟨h2, R, W + 1, Rc, Wc, hr, rfl, hrc, hwc, ?_, ?_, ?_, ?_, ?_, ?_⟩ <;>
        ((try simp only [write_value]); omega)

theorem try_pop_invG (q q2 : SPSCQueue α) (hinv : InvG q)
    (h : (try_pop q).2 = q2) : InvG q2 := by
  obtain ⟨h2, R, W, Rc, Wc, hr, hw, hrc, hwc, i1, i2, i3, i4, i5, i6⟩ := hinv
  unfold try_pop at h
  dsimp only at h
  rw [hr, wrap_succ q.capacity_ R h2, hwc, hw] at h
  by_cases hb1 : R % q.capacity_ = Wc % q.capacity_
  · rw [if_pos hb1] at h
    by_cases hb2 : R % q.capacity_ = W % q.capacity_
    · rw [if_pos hb2] at h
      subst h
      refine ⟨h2, R, W, Rc, W, rfl, rfl, hrc, rfl, ?_, ?_, ?_, ?_, ?_, ?_⟩ <;>
        ((try simp only [write_value]); omega)
    · rw [if_neg hb2] at h
      subst h
      have hb := mod_ne_bound q.capacity_ R W (by omega) (by omega)
        (fun hx => hb2 hx.symm)
      refine ⟨h2, R + 1, W, Rc, W, rfl, rfl, hrc, rfl, ?_, ?_, ?_, ?_, ?_, ?_⟩ <;>
        ((try simp only [write_value]); omega)
  · rw [if_neg hb1] at h
    subst h
    have hb := mod_ne_bound q.capacity_ R Wc (by omega) (by omega)
      (fun hx => hb1 hx.symm)
    refine ⟨h2, R + 1, W, Rc, Wc, rfl, rfl, hrc, rfl, ?_, ?_, ?_, ?_, ?_, ?_⟩ <;>
        ((try simp only [write_value]); omega)

theorem stepG_invG (q q2 : SPSCQueue α) (hinv : InvG q) (h : StepG q q2) :
    InvG q2 := by
  cases h with
  | emp v q2 h => exact emplace_invG q q2 v hinv h
  | tryEmp v q2 h => exact try_emplace_invG q q2 v hinv h
  | pop q2 h => exact try_pop_invG q q2 hinv h

theorem reachableG_invG (q0 q : SPSCQueue α) (hinv : InvG q0)
    (h : ReachableG q0 q) : InvG q := by
  induction h with
  | refl => exact hinv
  | step q1 q2 h1 h2 ih => exact stepG_invG q1 q2 ih h2

theorem construct_invG (dflt : α) (s c : Nat) (q : SPSCQueue α)
    (h : construct dflt s c = Except.ok q) : InvG q := by
  obtain ⟨⟨hc, _, _⟩, hc1, hr, hw, hrc, hwc, _, _⟩ := construct_fields dflt s c q h
  exact ⟨by omega, 0, 0, 0, 0, by simp [hr], by simp [hw], by simp [hrc],
    by simp [hwc], by omega, by omega, by omega, by omega, by omega, by omega⟩

/-! ### Abstraction of the ring buffer to a FIFO list -/

/-- The values stored in `n` consecutive ring slots starting at index `i`,
stepping with the code's wrap expression. -/
def absFrom (q : SPSCQueue α) : Nat → Nat → List α
  | _, 0 => []
  | i, n + 1 =>
    read_value q i :: absFrom q (if i = q.capacity_ - 1 then 0 else i + 1) n

/-- The logical FIFO contents: the `size q` values starting at `readIndex_`. -/
def absQueue (q : SPSCQueue α) : List α :=
  absFrom q q.readIndex_ (size q)

theorem absFrom_eq_map (q : SPSCQueue α) (n : Nat) :
    ∀ i, i < q.capacity_ →
      absFrom q i n
        = (List.range n).map (fun k => read_value q ((i + k) % q.capacity_)) := by
  induction n with
  | zero => intro i hi; simp [absFrom]
  | succ n ih =>
    intro i hi
    have hcap : 0 < q.capacity_ := by omega
    rw [List.range_succ_eq_map, List.map_cons, List.map_map]
    simp only [absFrom]
    rw [nextIdx_eq q.capacity_ i hi, ih ((i + 1) % q.capacity_) (Nat.mod_lt _ hcap)]
    simp only [List.cons.injEq]
    constructor
    · rw [Nat.add_zero, Nat.mod_eq_of_lt hi]
    · refine List.map_congr_left ?_
      intro k _
      simp only [Function.comp, Nat.succ_eq_add_one]
      rw [Nat.mod_add_mod]
      have e : i + 1 + k = i + (k + 1) := by omega
      rw [e]

theorem ring_pos_eq (cap r w : Nat) (hr : r < cap) (hw : w < cap) :
    (r + (w + cap - r) % cap) % cap = w := by
  rw [Nat.add_mod_mod]
  have e : r + (w + cap - r) = w + cap := by omega
  rw [e, Nat.add_mod_right, Nat.mod_eq_of_lt hw]

theorem ring_pos_ne (cap r w k : Nat) (hr : r < cap) (hw : w < cap)
    (hk : k < (w + cap - r) % cap) : (r + k) % cap ≠ w := by
  intro hx
  have hcap : 0 < cap := by omega
  have hsz : (w + cap - r) % cap < cap := Nat.mod_lt _ hcap
  have h1 : (r + k) % cap = (r + (w + cap - r) % cap) % cap := by
    rw [hx, ring_pos_eq cap r w hr hw]
  have h2 := (mod_eq_iff cap (r + k) (r + (w + cap - r) % cap)
    (by omega) (by omega)).mp h1
  omega

/-- Pushing one value into a non-full queue extends the abstraction by that
value: the generic buffer/cursor shape shared by `emplace` and `try_emplace`. -/
theorem write_abs (c : Nat) (q : SPSCQueue α) (v : α) (hc : q.capacity_ = c + 1)
    (hr0 : q.readIndex_ < q.capacity_) (hw0 : q.writeIndex_ < q.capacity_)
    (hsz : size q < c) (q2 : SPSCQueue α)
    (hbuf : q2.buffer_
      = fun j => if j = q.writeIndex_ + q.padding then v else q.buffer_ j)
    (hpad : q2.padding = q.padding) (hcap2 : q2.capacity_ = q.capacity_)
    (hr2 : q2.readIndex_ = q.readIndex_)
    (hw2 : q2.writeIndex_ = (q.writeIndex_ + 1) % q.capacity_) :
    absQueue q2 = absQueue q ++ [v] := by
  have h2 : 2 ≤ q.capacity_ := by omega
  have hcap : 0 < q.capacity_ := by omega
  have hszeq := size_eq q hr0 hw0
  have hr2lt : q2.readIndex_ < q2.capacity_ := by rw [hr2, hcap2]; exact hr0
  have hw2lt : q2.writeIndex_ < q2.capacity_ := by
    rw [hw2, hcap2]; exact Nat.mod_lt _ hcap
  have hsz2 : size q2 = size q + 1 := by
    have hs2 := size_eq q2 hr2lt hw2lt
    rw [hcap2, hw2, hr2] at hs2
    have e1 : (q.writeIndex_ + 1) % q.capacity_ + q.capacity_ - q.readIndex_
        = (q.writeIndex_ + 1) % q.capacity_ + (q.capacity_ - q.readIndex_) := by
      omega
    rw [e1, Nat.mod_add_mod] at hs2
    have e2 : q.writeIndex_ + 1 + (q.capacity_ - q.readIndex_)
        = q.writeIndex_ + q.capacity_ - q.readIndex_ + 1 := by omega
    rw [e2, succ_mod _ _ h2, if_neg (by omega)] at hs2
    omega
  have hmain : ∀ k, k < size q →
      read_value q2 ((q.readIndex_ + k) % q.capacity_)
        = read_value q ((q.readIndex_ + k) % q.capacity_) := by
    intro k hk
    have hne : (q.readIndex_ + k) % q.capacity_ ≠ q.writeIndex_ :=
      ring_pos_ne q.capacity_ q.readIndex_ q.writeIndex_ k hr0 hw0 (by omega)
    unfold read_value
    rw [hbuf, hpad]
    dsimp only
    rw [if_neg (fun hx => hne (by omega))]
  have hhead : read_value q2 ((q.readIndex_ + size q) % q.capacity_) = v := by
    have hpos : (q.readIndex_ + size q) % q.capacity_ = q.writeIndex_ := by
      rw [hszeq]
      exact ring_pos_eq q.capacity_ q.readIndex_ q.writeIndex_ hr0 hw0
    unfold read_value
    rw [hbuf, hpad, hpos]
    dsimp only
    rw [if_pos rfl]
  unfold absQueue
  rw [absFrom_eq_map q2 (size q2) q2.readIndex_ hr2lt,
      absFrom_eq_map q (size q) q.readIndex_ hr0]
  simp only [hr2, hcap2, hsz2]
  rw [List.range_succ, List.map_append]
  simp only [List.map_cons, List.map_nil]
  have htail : List.map
        (fun k => read_value q2 ((q.readIndex_ + k) % q.capacity_))
        (List.range (size q))
      = List.map (fun k => read_value q ((q.readIndex_ + k) % q.capacity_))
        (List.range (size q)) :=
    List.map_congr_left (fun k hk => hmain k (List.mem_range.mp hk))
  rw [htail, hhead]

/-- Popping from a non-empty queue removes exactly the head of the
abstraction: the generic shape of a successful `try_pop`. -/
theorem pop_abs (c : Nat) (q : SPSCQueue α) (hc : q.capacity_ = c + 1)
    (hr0 : q.readIndex_ < q.capacity_) (hw0 : q.writeIndex_ < q.capacity_)
    (hszpos : 0 < size q) (q2 : SPSCQueue α)
    (hbuf : q2.buffer_ = q.buffer_) (hpad : q2.padding = q.padding)
    (hcap2 : q2.capacity_ = q.capacity_) (hw2 : q2.writeIndex_ = q.writeIndex_)
    (hr2 : q2.readIndex_ = (q.readIndex_ + 1) % q.capacity_) :
    read_value q q.readIndex_ :: absQueue q2 = absQueue q := by
  have h2 : 2 ≤ q.capacity_ := by
    by_contra hlt
    have hr' : q.readIndex_ = 0 := by omega
    have hw' : q.writeIndex_ = 0 := by omega
    have hz : size q = 0 := by unfold size; rw [hr', hw']; simp
    omega
  have hcap : 0 < q.capacity_ := by omega
  have hszeq := size_eq q hr0 hw0
  obtain ⟨n, hn⟩ : ∃ n, size q = n + 1 := ⟨size q - 1, by omega⟩
  have hr2lt : q2.readIndex_ < q2.capacity_ := by
    rw [hr2, hcap2]; exact Nat.mod_lt _ hcap
  have hw2lt : q2.writeIndex_ < q2.capacity_ := by rw [hw2, hcap2]; exact hw0
  have hsz2 : size q2 = n := by
    have hs2 := size_eq q2 hr2lt hw2lt
    rw [hcap2, hw2, hr2] at hs2
    by_cases hb : q.readIndex_ = q.capacity_ - 1
    · have e0 : (q.readIndex_ + 1) % q.capacity_ = 0 := by
        rw [hb]
        have e : q.capacity_ - 1 + 1 = q.capacity_ := by omega
        rw [e, Nat.mod_self]
      rw [e0, Nat.sub_zero, Nat.add_mod_right, Nat.mod_eq_of_lt hw0] at hs2
      have hwne : ¬ q.writeIndex_ = q.capacity_ - 1 := by
        intro hww
        have hz : size q = 0 := by
          rw [hszeq, hww, hb]
          have e : q.capacity_ - 1 + q.capacity_ - (q.capacity_ - 1)
              = q.capacity_ := by omega
          rw [e, Nat.mod_self]
        omega
      have hsw : size q = q.writeIndex_ + 1 := by
        rw [hszeq, hb]
        have e : q.writeIndex_ + q.capacity_ - (q.capacity_ - 1)
            = q.writeIndex_ + 1 := by omega
        rw [e, Nat.mod_eq_of_lt (by omega)]
      omega
    · have e0 : (q.readIndex_ + 1) % q.capacity_ = q.readIndex_ + 1 :=
        Nat.mod_eq_of_lt (by omega)
      rw [e0] at hs2
      have e1 : q.writeIndex_ + q.capacity_ - (q.readIndex_ + 1)
          = q.writeIndex_ + q.capacity_ - q.readIndex_ - 1 := by omega
      rw [e1] at hs2
      have e2 := succ_mod q.capacity_
        (q.writeIndex_ + q.capacity_ - q.readIndex_ - 1) h2
      have e3 : q.writeIndex_ + q.capacity_ - q.readIndex_ - 1 + 1
          = q.writeIndex_ + q.capacity_ - q.readIndex_ := by omega
      rw [e3] at e2
      rw [hszeq] at hn
      by_cases hbb : (q.writeIndex_ + q.capacity_ - q.readIndex_ - 1)
          % q.capacity_ = q.capacity_ - 1
      · rw [if_pos hbb] at e2; omega
      · rw [if_neg hbb] at e2; omega
  unfold absQueue
  rw [absFrom_eq_map q2 (size q2) q2.readIndex_ hr2lt,
      absFrom_eq_map q (size q) q.readIndex_ hr0, hsz2, hn,
      List.range_succ_eq_map, List.map_cons, List.map_map]
  simp only [List.cons.injEq]
  constructor
  · rw [Nat.add_zero, Nat.mod_eq_of_lt hr0]
  · refine List.map_congr_left ?_
    intro k _
    simp only [Function.comp, Nat.succ_eq_add_one, read_value, hbuf, hpad,
      hr2, hcap2]
    rw [Nat.mod_add_mod]
    have e : q.readIndex_ + 1 + k = q.readIndex_ + (k + 1) := by omega
    rw [e]

theorem emplace_spec (c : Nat) (q : SPSCQueue α) (v : α) (hwf : WF c q)
    (hsz : size q < c) :
    ∃ q2, emplace q v = some q2 ∧ WF c q2 ∧ q2.readIndex_ = q.readIndex_ ∧
      absQueue q2 = absQueue q ++ [v] := by
  obtain ⟨hc, hr0, hw0⟩ := hwf
  have h2 : 2 ≤ q.capacity_ := by omega
  have hcap : 0 < q.capacity_ := by omega
  have hszeq := size_eq q hr0 hw0
  have hfull : ¬ (q.writeIndex_ + 1) % q.capacity_ = q.readIndex_ := by
    intro hx
    by_cases hb : q.writeIndex_ = q.capacity_ - 1
    · have hr : q.readIndex_ = 0 := by
        rw [← hx, hb]
        have e : q.capacity_ - 1 + 1 = q.capacity_ := by omega
        rw [e, Nat.mod_self]
      have hqs : size q = c := by
        rw [hszeq, hr, hb, Nat.sub_zero, Nat.add_mod_right,
          Nat.mod_eq_of_lt (by omega)]
        omega
      omega
    · have hr : q.readIndex_ = q.writeIndex_ + 1 := by
        rw [← hx, Nat.mod_eq_of_lt (by omega)]
      have hqs : size q = c := by
        rw [hszeq, hr]
        have e : q.writeIndex_ + q.capacity_ - (q.writeIndex_ + 1)
            = q.capacity_ - 1 := by omega
        rw [e, Nat.mod_eq_of_lt (by omega)]
        omega
      omega
  unfold emplace
  dsimp only
  rw [nextIdx_eq q.capacity_ q.writeIndex_ hw0]
  by_cases hb1 : (q.writeIndex_ + 1) % q.capacity_ = q.readIndexCache_
  · rw [if_pos hb1, if_neg hfull]
    exact ⟨_, rfl, ⟨hc, hr0, Nat.mod_lt _ hcap⟩, rfl,
      write_abs c q v hc hr0 hw0 hsz _ rfl rfl rfl rfl rfl⟩
  · rw [if_neg hb1]
    exact ⟨_, rfl, ⟨hc, hr0, Nat.mod_lt _ hcap⟩, rfl,
      write_abs c q v hc hr0 hw0 hsz _ rfl rfl rfl rfl rfl⟩

theorem try_pop_spec (c : Nat) (q : SPSCQueue α) (x : α) (l : List α)
    (hwf : WF c q) (habs : absQueue q = x :: l) :
    ∃ q2, try_pop q = (some x, q2) ∧ WF c q2 ∧
      q2.writeIndex_ = q.writeIndex_ ∧ absQueue q2 = l := by
  obtain ⟨hc, hr0, hw0⟩ := hwf
  have hcap : 0 < q.capacity_ := by omega
  have hlen : (absQueue q).length = size q := by
    unfold absQueue
    rw [absFrom_eq_map q (size q) q.readIndex_ hr0]
    simp
  have hszpos : 0 < size q := by
    rw [habs] at hlen
    simp at hlen
    omega
  have hszeq := size_eq q hr0 hw0
  have hne : ¬ q.readIndex_ = q.writeIndex_ := by
    intro hx
    have hz : size q = 0 := by
      rw [hszeq, hx]
      have e : q.writeIndex_ + q.capacity_ - q.writeIndex_ = q.capacity_ := by
        omega
      rw [e, Nat.mod_self]
    omega
  unfold try_pop
  dsimp only
  rw [nextIdx_eq q.capacity_ q.readIndex_ hr0]
  by_cases hb1 : q.readIndex_ = q.writeIndexCache_
  · rw [if_pos hb1, if_neg hne]
    have hcons := pop_abs c q hc hr0 hw0 hszpos
      { q with writeIndexCache_ := q.writeIndex_,
               readIndex_ := (q.readIndex_ + 1) % q.capacity_ }
      rfl rfl rfl rfl rfl
    rw [habs] at hcons
    injection hcons with hh ht
    refine Exists.intro
      { q with writeIndexCache_ := q.writeIndex_,
               readIndex_ := (q.readIndex_ + 1) % q.capacity_ }
      ⟨by rw [hh], ⟨hc, Nat.mod_lt _ hcap, hw0⟩, rfl, ht⟩
  · rw [if_neg hb1]
    have hcons := pop_abs c q hc hr0 hw0 hszpos
      { q with readIndex_ := (q.readIndex_ + 1) % q.capacity_ }
      rfl rfl rfl rfl rfl
    rw [habs] at hcons
    injection hcons with hh ht
    refine Exists.intro
      { q with readIndex_ := (q.readIndex_ + 1) % q.capacity_ }
      ⟨by rw [hh], ⟨hc, Nat.mod_lt _ hcap, hw0⟩, rfl, ht⟩

/-! ### Input/output sequences of operations -/

/-- Folding `emplace` over a list of values; `none` if any push would block. -/
def pushAll (q : SPSCQueue α) : List α → Option (SPSCQueue α)
  | [] => some q
  | x :: xs =>
    match emplace q x with
    | some q2 => pushAll q2 xs
    | none => none

/-- Performing `n` pops and collecting the values; `none` if any pop fails. -/
def popN (q : SPSCQueue α) : Nat → Option (List α × SPSCQueue α)
  | 0 => some ([], q)
  | n + 1 =>
    match try_pop q with
    | (some x, q2) =>
      match popN q2 n with
      | some (l, q3) => some (x :: l, q3)
      | none => none
    | (none, _) => none

/-- Alternating fill/drain cycles: each cycle pushes the values of one list,
then pops that many values.  Returns the pops of every cycle. -/
def runCycles (q : SPSCQueue α) :
    List (List α) → Option (List (List α) × SPSCQueue α)
  | [] => some ([], q)
  | xs :: rest =>
    match pushAll q xs with
    | none => none
    | some q1 =>
      match popN q1 xs.length with
      | none => none
      | some (ys, q2) =>
        match runCycles q2 rest with
        | none => none
        | some (rss, q3) => some (ys :: rss, q3)

theorem absQueue_length (q : SPSCQueue α) (hr0 : q.readIndex_ < q.capacity_) :
    (absQueue q).length = size q := by
  unfold absQueue
  rw [absFrom_eq_map q (size q) q.readIndex_ hr0]
  simp

theorem pushAll_spec (c : Nat) (xs : List α) :
    ∀ (q : SPSCQueue α) (l : List α), WF c q → absQueue q = l →
      l.length + xs.length ≤ c →
      ∃ q2, pushAll q xs = some q2 ∧ WF c q2 ∧ absQueue q2 = l ++ xs := by
  induction xs with
  | nil =>
    intro q l hwf habs hlen
    exact ⟨q, rfl, hwf, by simp [habs]⟩
  | cons x xs ih =>
    intro q l hwf habs hlen
    have hsz : size q < c := by
      have hl := absQueue_length q hwf.2.1
      rw [habs] at hl
      simp at hlen
      omega
    obtain ⟨q1, he, hwf1, hr1, habs1⟩ := emplace_spec c q x hwf hsz
    obtain ⟨q2, hp, hwf2, habs2⟩ := ih q1 (l ++ [x]) hwf1
      (by rw [habs1, habs]) (by simp at hlen ⊢; omega)
    refine ⟨q2, ?_, hwf2, by rw [habs2]; simp⟩
    simp only [pushAll, he]
    exact hp

theorem popN_spec (c : Nat) (l : List α) :
    ∀ q : SPSCQueue α, WF c q → absQueue q = l →
      ∃ q2, popN q l.length = some (l, q2) ∧ WF c q2 ∧ absQueue q2 = [] := by
  induction l with
  | nil => intro q hwf habs; exact ⟨q, rfl, hwf, habs⟩
  | cons x l ih =>
    intro q hwf habs
    obtain ⟨q1, hp, hwf1, hw1, habs1⟩ := try_pop_spec c q x l hwf habs
    obtain ⟨q2, hp2, hwf2, habs2⟩ := ih q1 hwf1 habs1
    refine ⟨q2, ?_, hwf2, habs2⟩
    show popN q (l.length + 1) = some (x :: l, q2)
    simp only [popN, hp, hp2]

theorem runCycles_spec (c : Nat) (cycles : List (List α)) :
    ∀ q : SPSCQueue α, WF c q → absQueue q = [] →
      (∀ xs ∈ cycles, xs.length ≤ c) →
      ∃ q2, runCycles q cycles = some (cycles, q2) ∧ WF c q2 ∧
        absQueue q2 = [] := by
  induction cycles with
  | nil => intro q hwf habs hall; exact ⟨q, rfl, hwf, habs⟩
  | cons xs rest ih =>
    intro q hwf habs hall
    have hxs : xs.length ≤ c := hall xs (by simp)
    obtain ⟨q1, h1, hwf1, habs1⟩ := pushAll_spec c xs q [] hwf habs (by simpa)
    have habs1b : absQueue q1 = xs := by simpa using habs1
    obtain ⟨q2, h2, hwf2, habs2⟩ := popN_spec c xs q1 hwf1 habs1b
    obtain ⟨q3, h3, hwf3, habs3⟩ := ih q2 hwf2 habs2
      (fun ys hys => hall ys (by simp [hys]))
    refine ⟨q3, ?_, hwf3, habs3⟩
    simp only [runCycles, h1, h2, h3]

theorem construct_absQueue (dflt : α) (s c : Nat) (q : SPSCQueue α)
    (h : construct dflt s c = Except.ok q) : absQueue q = [] := by
  obtain ⟨⟨hc, hr0, hw0⟩, _, hr, hw, _, _, _, _⟩ := construct_fields dflt s c q h
  unfold absQueue
  have hz : size q = 0 := by unfold size; rw [hr, hw]; simp
  rw [hz]
  rfl

end SPSC

namespace SPSCsrc

/-- State of the older `dro::SPSC_Queue<T>` (file `src/spsc-queue.hpp`); only
its constructor and queries differ materially from the primary version, and
only those are needed by the claims that cite it. -/
structure SPSC_Queue (α : Type) where
  capacity_ : Nat
  buffer_ : Nat → α
  bufferSize_ : Nat
  readIdx_ : Nat
  readIdxCache_ : Nat
  writeIdx_ : Nat
  writeIdxCache_ : Nat

/-- Constructor of `dro::SPSC_Queue`: clamps capacity `< 1` up to 1, then
increments (`++capacity_` on `std::size_t`, which wraps modulo `2^64`), then
applies the dead guard `capacity_ > SIZE_MAX` (never true for a `size_t`),
and resizes the buffer to `capacity_`.  It never throws. -/
def construct (dflt : α) (capacity : Nat) : SPSC_Queue α :=
  let c1 := if capacity < 1 then 1 else capacity
  let c2 := (c1 + 1) % 2 ^ 64
  let c3 := if c2 > SPSC.MAX_SIZE_T then SPSC.MAX_SIZE_T else c2
  { capacity_ := c3
    buffer_ := fun _ => dflt
    bufferSize_ := c3
    readIdx_ := 0
    readIdxCache_ := 0
    writeIdx_ := 0
    writeIdxCache_ := 0 }

/-- Query `capacity()` of `dro::SPSC_Queue`: `capacity_ - 1` on `std::size_t`,
which wraps modulo `2^64` when `capacity_ = 0`. -/
def capacity (q : SPSC_Queue α) : Nat :=
  (q.capacity_ + 2 ^ 64 - 1) % 2 ^ 64

end SPSCsrc

/-! ### Example states used by the claim witnesses -/

/-- The state produced by `SPSC.construct 0 8 1`: a fresh queue of user
capacity 1 over `Nat` elements with `sizeof(T) = 8` (padding 8). -/
def q0ex : SPSC.SPSCQueue Nat :=
  { capacity_ := 2
    buffer_ := fun _ => 0
    bufferSize_ := 18
    padding := 8
    readIndex_ := 0
    readIndexCache_ := 0
    writeIndex_ := 0
    writeIndexCache_ := 0 }

/-- The queue `q0ex` after `emplace 42`: a full queue of capacity 1. -/
def q1ex : SPSC.SPSCQueue Nat :=
  { capacity_ := 2
    buffer_ := fun j => if j = 8 then 42 else 0
    bufferSize_ := 18
    padding := 8
    readIndex_ := 0
    readIndexCache_ := 0
    writeIndex_ := 1
    writeIndexCache_ := 0 }

/-- The state produced by `SPSC.construct 0 8 2`: a fresh queue of user
capacity 2. -/
def q2ex : SPSC.SPSCQueue Nat :=
  { capacity_ := 3
    buffer_ := fun _ => 0
    bufferSize_ := 19
    padding := 8
    readIndex_ := 0
    readIndexCache_ := 0
    writeIndex_ := 0
    writeIndexCache_ := 0 }

/-- The state produced by `SPSC.construct 0 4 3`: a fresh queue of user
capacity 3 with `sizeof(T) = 4` (padding 16). -/
def q4ex : SPSC.SPSCQueue Nat :=
  { capacity_ := 4
    buffer_ := fun _ => 0
    bufferSize_ := 36
    padding := 16
    readIndex_ := 0
    readIndexCache_ := 0
    writeIndex_ := 0
    writeIndexCache_ := 0 }

/-! ### The claims -/

/-- C1: for every capacity `c ≥ 1` (any successfully constructed queue) and
every sequence of fill/drain cycles whose fills each have at most `c` values
(this includes a single fill of `N ≤ c` values followed by `N` pops, and
arbitrary wraparound with any total number of operations, in particular
`≥ 3 × capacity`), all pushes succeed without blocking, all `try_pop`s
succeed, and each cycle pops exactly the values it pushed, in insertion
order. -/
theorem claim_C1_fifo_wraparound (α : Type) (dflt : α) (s c : Nat)
    (q0 : SPSC.SPSCQueue α) (h0 : SPSC.construct dflt s c = Except.ok q0)
    (cycles : List (List α)) (hlen : ∀ xs ∈ cycles, xs.length ≤ c) :
    Option.map Prod.fst (SPSC.runCycles q0 cycles) = some cycles := by
  have hwf := (SPSC.construct_fields dflt s c q0 h0).1
  have habs := SPSC.construct_absQueue dflt s c q0 h0
  obtain ⟨q2, hrun, _, _⟩ := SPSC.runCycles_spec c cycles q0 hwf habs hlen
  rw [hrun]
  rfl

/-- Witness for C1: capacity 2, three fill/drain cycles of two values each
(12 operations, which is `≥ 3 ×` the capacity and wraps the ring four
times). -/
theorem claim_C1_witness :
    Option.map Prod.fst (SPSC.runCycles q2ex [[1, 2], [3, 4], [5, 6]])
      = some [[1, 2], [3, 4], [5, 6]] :=
  claim_C1_fifo_wraparound Nat 0 8 2 q2ex rfl [[1, 2], [3, 4], [5, 6]]
    (by decide)

/-- C2 counterexample: on the full capacity-1 queue `q1ex` (obtained from a
fresh queue by `emplace 42`), `force_emplace 99` succeeds but the immediately
following `try_pop` returns no element, because the advanced write cursor
equals the read cursor; the original claim asserts the pop returns true. -/
theorem claim_C2_counterexample :
    SPSC.emplace q0ex 42 = some q1ex ∧
    SPSC.isFull q1ex = true ∧
    (SPSC.try_pop (SPSC.force_emplace q1ex 99)).1 = none := by
  refine ⟨rfl, rfl, rfl⟩

/-- C2 (amended): for every full queue, a force-insert always succeeds — it
stores its value in the current write slot and advances the write cursor —
but the advanced write cursor then equals the read cursor, so the immediately
following `try_pop` retrieves an element if and only if the consumer's cached
write index differs from the read index; in particular on a freshly filled
queue (cache equal to the read index) it returns no element. -/
theorem claim_C2_force_full (α : Type) (q : SPSC.SPSCQueue α) (v : α)
    (hfull : SPSC.isFull q = true) :
    SPSC.read_value (SPSC.force_emplace q v) q.writeIndex_ = v ∧
    (SPSC.force_emplace q v).writeIndex_ = q.readIndex_ ∧
    ((SPSC.try_pop (SPSC.force_emplace q v)).1 = none ↔
      q.writeIndexCache_ = q.readIndex_) := by
  have hf : (if q.writeIndex_ = q.capacity_ - 1 then 0 else q.writeIndex_ + 1)
      = q.readIndex_ := by simpa [SPSC.isFull] using hfull
  refine ⟨?_, ?_, ?_⟩
  · unfold SPSC.force_emplace SPSC.write_value SPSC.read_value
    dsimp only
    rw [if_pos rfl]
  · unfold SPSC.force_emplace
    dsimp only
    exact hf
  · unfold SPSC.force_emplace SPSC.write_value SPSC.try_pop
    dsimp only
    rw [hf]
    by_cases hb : q.readIndex_ = q.writeIndexCache_
    · rw [if_pos hb, if_pos rfl]
      exact ⟨fun _ => hb.symm, fun _ => rfl⟩
    · rw [if_neg hb]
      constructor
      · intro hx
        exact Option.noConfusion hx
      · intro hx
        exact absurd hx.symm hb

/-- Witness for C2 (amended) at the concrete full queue `q1ex`. -/
theorem claim_C2_witness :
    SPSC.read_value (SPSC.force_emplace q1ex 99) q1ex.writeIndex_ = 99 ∧
    (SPSC.force_emplace q1ex 99).writeIndex_ = q1ex.readIndex_ ∧
    ((SPSC.try_pop (SPSC.force_emplace q1ex 99)).1 = none ↔
      q1ex.writeIndexCache_ = q1ex.readIndex_) :=
  claim_C2_force_full Nat q1ex 99 rfl

/-- C3 counterexample: a queue state reachable by public operations only
(three pushes, two pops, then two force-inserts on a capacity-3 queue) is
full, yet `try_emplace` returns `true` — it writes and advances the cursor —
because the force-inserts left the producer's cached read index stale; the
original claim asserts `try_emplace` returns false on every full state. -/
theorem claim_C3_counterexample :
    Option.map (fun q => (SPSC.isFull q, (SPSC.try_emplace q 15).1))
      (((((SPSC.construct (0 : Nat) 8 3).toOption.bind
          (fun q => SPSC.emplace q 10)).bind
          (fun q => SPSC.emplace q 11)).bind
          (fun q => SPSC.emplace q 12)).map
        (fun q => SPSC.force_emplace
          (SPSC.force_emplace
            ((SPSC.try_pop ((SPSC.try_pop q).2)).2) 13) 14))
      = some (true, true) := by
  rfl

/-- C3 (amended): for every queue state reachable from a freshly constructed
queue using only the guarded operations `emplace`, `try_emplace` and
`try_pop` (no force-inserts), if the queue is full then `try_emplace`
returns `false` and leaves the entire queue state — cursors, caches, stored
elements, and hence `size()` and `capacity()` — unchanged. -/
theorem claim_C3_try_emplace_full (α : Type) (dflt : α) (s c : Nat)
    (q0 q : SPSC.SPSCQueue α) (v : α)
    (h0 : SPSC.construct dflt s c = Except.ok q0)
    (hreach : SPSC.ReachableG q0 q) (hfull : SPSC.isFull q = true) :
    SPSC.try_emplace q v = (false, q) := by
  have hinv := SPSC.reachableG_invG q0 q (SPSC.construct_invG dflt s c q0 h0)
    hreach
  obtain ⟨h2, R, W, Rc, Wc, hr, hw, hrc, hwc, i1, i2, i3, i4, i5, i6⟩ := hinv
  have hf0 : (if q.writeIndex_ = q.capacity_ - 1 then 0 else q.writeIndex_ + 1)
      = q.readIndex_ := by simpa [SPSC.isFull] using hfull
  have hf1 := hf0
  rw [hw, SPSC.wrap_succ q.capacity_ W h2, hr] at hf1
  have hWR : W = R + (q.capacity_ - 1) := by
    have hd := (SPSC.mod_eq_iff q.capacity_ R (W + 1) (by omega) (by omega)).mp
      hf1.symm
    omega
  have hRc : Rc = R := by omega
  have hcr : q.readIndexCache_ = q.readIndex_ := by rw [hrc, hr, hRc]
  have hqe : ({ q with readIndexCache_ := q.readIndex_ } : SPSC.SPSCQueue α)
      = q := by
    obtain ⟨f1, f2, f3, f4, f5, f6, f7, f8⟩ := q
    dsimp only at hcr
    rw [hcr]
  unfold SPSC.try_emplace
  dsimp only
  rw [if_pos (hf0.trans hcr.symm), if_pos hf0, hqe]

/-- Witness for C3 (amended): the full capacity-1 queue `q1ex`, reachable
from the fresh queue `q0ex` by one guarded `emplace`. -/
theorem claim_C3_witness :
    SPSC.try_emplace q1ex 7 = (false, q1ex) :=
  claim_C3_try_emplace_full Nat 0 8 1 q0ex q1ex 7 rfl
    (SPSC.ReachableG.step q0ex q0ex q1ex (SPSC.ReachableG.refl q0ex)
      (SPSC.StepG.emp q0ex 42 q1ex rfl))
    rfl

/-- C4: for every reachable queue state, `size()` equals
`(writeIndex - readIndex) mod (capacity + 1)` in integer arithmetic (hence
never negative), and never exceeds `capacity()`, including after
wraparound when `readIndex` is numerically greater than `writeIndex`. -/
theorem claim_C4_size_mod (α : Type) (dflt : α) (s c : Nat)
    (q0 q : SPSC.SPSCQueue α) (h0 : SPSC.construct dflt s c = Except.ok q0)
    (hreach : SPSC.Reachable q0 q) :
    (SPSC.size q : Int)
        = ((q.writeIndex_ : Int) - (q.readIndex_ : Int)) % ((c : Int) + 1) ∧
    SPSC.size q ≤ SPSC.capacity q := by
  obtain ⟨hc, hr0, hw0⟩ := SPSC.reachable_wf c q0 q
    (SPSC.construct_fields dflt s c q0 h0).1 hreach
  constructor
  · have hm : ((c : Int) + 1) = (q.capacity_ : Int) := by
      rw [hc]
      push_cast
      ring
    rw [hm]
    unfold SPSC.size
    by_cases hge : q.writeIndex_ ≥ q.readIndex_
    · rw [if_pos hge]
      rw [Int.emod_eq_of_lt (by omega) (by omega)]
      omega
    · rw [if_neg hge]
      have key : ((q.writeIndex_ : Int) - (q.readIndex_ : Int))
            % (q.capacity_ : Int)
          = (q.writeIndex_ : Int) - (q.readIndex_ : Int)
            + (q.capacity_ : Int) := by
        nth_rewrite 1 [show ((q.writeIndex_ : Int) - (q.readIndex_ : Int))
            = ((q.writeIndex_ : Int) - (q.readIndex_ : Int)
                + (q.capacity_ : Int)) + (q.capacity_ : Int) * (-1) by ring]
        rw [Int.add_mul_emod_self_left]
        have hx1 : (0 : Int) ≤ (q.writeIndex_ : Int) - (q.readIndex_ : Int)
            + (q.capacity_ : Int) := by omega
        have hx2 : (q.writeIndex_ : Int) - (q.readIndex_ : Int)
            + (q.capacity_ : Int) < (q.capacity_ : Int) := by omega
        exact Int.emod_eq_of_lt hx1 hx2
      rw [key]
      omega
  · unfold SPSC.size SPSC.capacity
    split
    · omega
    · omega

/-- Witness for C4 at the fresh capacity-1 queue `q0ex`. -/
theorem claim_C4_witness :
    (SPSC.size q0ex : Int)
        = ((q0ex.writeIndex_ : Int) - (q0ex.readIndex_ : Int))
          % ((1 : Int) + 1) ∧
    SPSC.size q0ex ≤ SPSC.capacity q0ex :=
  claim_C4_size_mod Nat 0 8 1 q0ex q0ex rfl (SPSC.Reachable.refl q0ex)

/-- C5 counterexample: the `src` constructor (`dro::SPSC_Queue`) with
requested capacity 0 raises nothing — it is total — and silently creates a
queue whose `capacity()` is 1, not the requested 0; the original claim
asserts every constructor raises a `ConfigurationError` and never silently
changes the capacity. -/
theorem claim_C5_counterexample :
    SPSCsrc.capacity (SPSCsrc.construct (0 : Nat) 0) = 1 ∧ (1 : Nat) ≠ 0 := by
  constructor
  · unfold SPSCsrc.capacity SPSCsrc.construct
    norm_num [SPSC.MAX_SIZE_T]
  · decide

/-- C5 (amended): the primary `dro::SPSCQueue` constructor raises a
`ConfigurationError` (`std::logic_error`) for requested capacity 0 and no
instance is created; the older `dro::SPSC_Queue` constructor in `src`
instead silently clamps capacity 0 to 1, observable as `capacity() = 1`. -/
theorem claim_C5_zero_capacity (α : Type) (dflt : α) (s : Nat) :
    SPSC.construct dflt s 0 = Except.error SPSC.ConstructError.logicError ∧
    SPSCsrc.capacity (SPSCsrc.construct dflt 0) = 1 := by
  constructor
  · rfl
  · unfold SPSCsrc.capacity SPSCsrc.construct
    norm_num [SPSC.MAX_SIZE_T]

/-- C6 counterexample: requesting the maximum capacity makes the allocation
`c + 1 + 2×padding` overflow, and construction fails with an overflow error —
no instance is created and nothing is clamped — whereas the original claim
asserts the allocation is clamped and the clamping observable through
`capacity()`. -/
theorem claim_C6_counterexample :
    SPSC.construct (0 : Nat) 1 SPSC.MAX_SIZE_T
      = Except.error SPSC.ConstructError.overflowError := by
  rfl

/-- C6 (amended): for every requested capacity `c` such that the internal
allocation `c + 1 + 2×padding` would overflow `std::size_t`, the constructor
throws `std::overflow_error` (the constructor fails and no instance is
created), rather than clamping or silently wrapping. -/
theorem claim_C6_overflow_error (α : Type) (dflt : α) (s c : Nat)
    (h : SPSC.MAX_SIZE_T - 2 * SPSC.paddingOf s - 1 < c) :
    SPSC.construct dflt s c = Except.error SPSC.ConstructError.overflowError := by
  have hp : SPSC.paddingOf s ≤ 64 := by
    unfold SPSC.paddingOf SPSC.paddingFormula SPSC.cacheLineSize
    have hd := Nat.div_le_self (64 - 1) s
    omega
  have hc1 : 1 ≤ c := by
    unfold SPSC.MAX_SIZE_T at h
    omega
  unfold SPSC.construct
  rw [if_neg (by omega), if_pos h]

/-- Witness for C6 (amended) at the maximum representable capacity. -/
theorem claim_C6_witness :
    SPSC.MAX_SIZE_T - 2 * SPSC.paddingOf 1 - 1 < SPSC.MAX_SIZE_T ∧
    SPSC.construct (0 : Nat) 1 SPSC.MAX_SIZE_T
      = Except.error SPSC.ConstructError.overflowError :=
  ⟨by decide, claim_C6_overflow_error Nat 0 1 SPSC.MAX_SIZE_T (by decide)⟩

/-- C7: for every requested capacity `c ≥ 1` for which construction succeeds
and every state reachable from the fresh queue, `capacity()` returns exactly
`c` — the user-visible capacity, excluding the hidden slot and all padding —
so the value is fixed for the instance's lifetime. -/
theorem claim_C7_capacity (α : Type) (dflt : α) (s c : Nat)
    (q0 q : SPSC.SPSCQueue α) (h0 : SPSC.construct dflt s c = Except.ok q0)
    (hreach : SPSC.Reachable q0 q) :
    SPSC.capacity q = c := by
  obtain ⟨hc, hr0, hw0⟩ := SPSC.reachable_wf c q0 q
    (SPSC.construct_fields dflt s c q0 h0).1 hreach
  unfold SPSC.capacity
  omega

/-- Witness for C7 at the fresh capacity-1 queue `q0ex`. -/
theorem claim_C7_witness : SPSC.capacity q0ex = 1 :=
  claim_C7_capacity Nat 0 8 1 q0ex q0ex rfl (SPSC.Reachable.refl q0ex)

/-- C8: for every state reachable from a freshly constructed queue (through
blocking, non-blocking or force inserts and non-blocking removes), both
cursors satisfy `0 ≤ cursor < capacity + 1`, and the advance of each cursor
is exactly addition by one modulo `capacity + 1`. -/
theorem claim_C8_cursor_bounds (α : Type) (dflt : α) (s c : Nat)
    (q0 q : SPSC.SPSCQueue α) (h0 : SPSC.construct dflt s c = Except.ok q0)
    (hreach : SPSC.Reachable q0 q) :
    (q.readIndex_ < c + 1 ∧ q.writeIndex_ < c + 1) ∧
    (if q.writeIndex_ = q.capacity_ - 1 then 0 else q.writeIndex_ + 1)
      = (q.writeIndex_ + 1) % (c + 1) ∧
    (if q.readIndex_ = q.capacity_ - 1 then 0 else q.readIndex_ + 1)
      = (q.readIndex_ + 1) % (c + 1) := by
  obtain ⟨hc, hr0, hw0⟩ := SPSC.reachable_wf c q0 q
    (SPSC.construct_fields dflt s c q0 h0).1 hreach
  refine ⟨⟨by omega, by omega⟩, ?_, ?_⟩
  · rw [← hc]
    exact SPSC.nextIdx_eq q.capacity_ q.writeIndex_ hw0
  · rw [← hc]
    exact SPSC.nextIdx_eq q.capacity_ q.readIndex_ hr0

/-- Witness for C8 at the fresh capacity-1 queue `q0ex`. -/
theorem claim_C8_witness :
    (q0ex.readIndex_ < 1 + 1 ∧ q0ex.writeIndex_ < 1 + 1) ∧
    (if q0ex.writeIndex_ = q0ex.capacity_ - 1 then 0 else q0ex.writeIndex_ + 1)
      = (q0ex.writeIndex_ + 1) % (1 + 1) ∧
    (if q0ex.readIndex_ = q0ex.capacity_ - 1 then 0 else q0ex.readIndex_ + 1)
      = (q0ex.readIndex_ + 1) % (1 + 1) :=
  claim_C8_cursor_bounds Nat 0 8 1 q0ex q0ex rfl (SPSC.Reachable.refl q0ex)

/-- C9: for every element size `s ≥ 1` and cache line size `L ≥ 1`, the
implementation's padding formula `((L - 1) / s) + 1` equals
`ceil(L / s) = (L + s - 1) / s` and is at least 1, and every successful
construction allocates exactly `capacity + 1 + 2 × padding` slots with the
padding constant compiled for `sizeof(T) = s` at the fixed cache line size. -/
theorem claim_C9_padding (α : Type) (dflt : α) (s L c : Nat)
    (q0 : SPSC.SPSCQueue α) (hs : 1 ≤ s) (hL : 1 ≤ L)
    (h0 : SPSC.construct dflt s c = Except.ok q0) :
    SPSC.paddingFormula L s = (L + s - 1) / s ∧
    1 ≤ SPSC.paddingFormula L s ∧
    q0.padding = SPSC.paddingFormula SPSC.cacheLineSize s ∧
    q0.bufferSize_ = c + 1 + 2 * q0.padding := by
  obtain ⟨-, -, -, -, -, -, hpad, hbuf⟩ := SPSC.construct_fields dflt s c q0 h0
  refine ⟨?_, ?_, hpad, ?_⟩
  · unfold SPSC.paddingFormula
    rw [show L + s - 1 = L - 1 + s by omega, Nat.add_div_right _ (by omega)]
  · unfold SPSC.paddingFormula
    exact Nat.le_add_left 1 ((L - 1) / s)
  · rw [hbuf, hpad]

/-- Witness for C9 with `s = 4`, `L = 64`, capacity 3 (`q4ex`). -/
theorem claim_C9_witness :
    SPSC.paddingFormula 64 4 = (64 + 4 - 1) / 4 ∧
    1 ≤ SPSC.paddingFormula 64 4 ∧
    q4ex.padding = SPSC.paddingFormula SPSC.cacheLineSize 4 ∧
    q4ex.bufferSize_ = 3 + 1 + 2 * q4ex.padding :=
  claim_C9_padding Nat 0 4 64 3 q4ex (by decide) (by decide) rfl

/-- C10: for every reachable queue state, `size()` returns 0 exactly when
`empty()` returns true; both reduce to the comparison of the two cursors. -/
theorem claim_C10_size_zero_iff_empty (α : Type) (dflt : α) (s c : Nat)
    (q0 q : SPSC.SPSCQueue α) (h0 : SPSC.construct dflt s c = Except.ok q0)
    (hreach : SPSC.Reachable q0 q) :
    SPSC.size q = 0 ↔ SPSC.empty q = true := by
  obtain ⟨hc, hr0, hw0⟩ := SPSC.reachable_wf c q0 q
    (SPSC.construct_fields dflt s c q0 h0).1 hreach
  unfold SPSC.size SPSC.empty
  simp only [beq_iff_eq]
  by_cases hge : q.writeIndex_ ≥ q.readIndex_
  · rw [if_pos hge]
    constructor
    · intro h
      omega
    · intro h
      omega
  · rw [if_neg hge]
    constructor
    · intro h
      omega
    · intro h
      omega

/-- Witness for C10 at the fresh capacity-1 queue `q0ex`. -/
theorem claim_C10_witness : SPSC.size q0ex = 0 ↔ SPSC.empty q0ex = true :=
  claim_C10_size_zero_iff_empty Nat 0 8 1 q0ex q0ex rfl
    (SPSC.Reachable.refl q0ex)
